import Mathlib

/-
Verification of the block-sparse-matrix composition layer
(`source/lac/petsc_parallel_block_sparse_matrix.cc`,
namespace `PETScWrappers::MPI`, class `BlockSparseMatrix`).

The native PETSc layer is opaque to the code under study; it is modelled
by its observable query surface: a matrix handle carries an identity, a
communicator, local/global row and column counts, and a nonzero count.
Native creation calls (`MatCreate...`, `MatCreateNest`) on the null
communicator `MPI_COMM_NULL` fail with a PETSc error code, which the
wrappers turn into an `ExcPETScError` exception (a backend error); on a
live communicator they succeed and yield a fresh handle.
-/

set_option maxRecDepth 8000

namespace Petsc

/-- An MPI communicator. `null` is `MPI_COMM_NULL`; `self` is
`PETSC_COMM_SELF`, the process-local communicator; `user i` is any other
communicator handed in by the caller. -/
inductive Comm where
  | null
  | self
  | user (id : Nat)
deriving DecidableEq, Repr

/-- Error taxonomy of the layer: `invalidSize` is an
`Assert(..., ExcMessage("invalid size"))` failure, `indexOutOfRange` a
grid-bounds failure, `backendError` an `AssertThrow(ierr == 0,
ExcPETScError(ierr))` failure propagated from the native layer, and
`preconditionViolation` a violated precondition of the layer itself. -/
inductive Err where
  | invalidSize
  | indexOutOfRange
  | backendError
  | preconditionViolation
deriving DecidableEq, Repr

deriving instance DecidableEq for Except

/-- A native distributed matrix handle (a PETSc `Mat`), by its query
surface: `hid` is the handle identity, `comm` its communicator,
`global_rows` mirrors `m()`, `global_cols` mirrors `n()`, `local_rows`
mirrors `local_size()`, `local_cols` mirrors `local_domain_size()`, and
`nnz` mirrors `n_nonzero_elements()`. -/
structure PetscMat where
  hid : Nat
  comm : Comm
  local_rows : Nat
  global_rows : Nat
  local_cols : Nat
  global_cols : Nat
  nnz : Nat
deriving DecidableEq, Repr

/-- The nested aggregate handle produced by `MatCreateNest`: identity,
communicator, block shape, and the row-major list of the identities of
the referenced sub-handles (the nest references, it does not copy). -/
structure NestMat where
  hid : Nat
  comm : Comm
  n_rows : Nat
  n_cols : Nat
  subs : List Nat
deriving DecidableEq, Repr

/-- State of a `BlockSparseMatrix`: the declared block shape, the grid
`sub_objects` of cells (a cell is `none` when the pointer is null, as
after decomposing a `MATNEST` with null sub-matrices; otherwise it holds
the wrapped native matrix), the row/column `BlockIndices` size tables,
and the owned aggregate `petsc_nest_matrix` (absent when the native
pointer is null). `next_hid` is the allocator for fresh native handle
identities. -/
structure BSM where
  n_block_rows : Nat
  n_block_cols : Nat
  sub_objects : List (List (Option PetscMat))
  row_block_sizes : List Nat
  col_block_sizes : List Nat
  petsc_nest_matrix : Option NestMat
  next_hid : Nat
deriving DecidableEq, Repr

/-- A default-constructed `BlockSparseMatrix`: empty grid, null nest. -/
def initialBSM : BSM :=
  ⟨0, 0, [], [], [], none, 0⟩

/-- Cell access `sub_objects[r][c]`. -/
def blockAt (s : BSM) (r c : Nat) : Option PetscMat :=
  (s.sub_objects.getD r []).getD c none

/-- Shape invariant: the grid really is `n_block_rows × n_block_cols`. -/
def wellShaped (s : BSM) : Bool :=
  s.sub_objects.length = s.n_block_rows &&
    s.sub_objects.all (fun row => row.length = s.n_block_cols)

/-- Every cell of the grid holds a concrete (non-null) block. -/
def allAssigned (grid : List (List (Option PetscMat))) : Bool :=
  grid.all (fun row => row.all Option.isSome)

/-- The size tables built by the first loop of `collect_sizes`
(lines 169–188): `row_sizes`, `col_sizes`, `row_local_sizes`,
`col_local_sizes` and the captured communicator `comm`. -/
structure SizeTables where
  row_sizes : List Nat
  col_sizes : List Nat
  row_local_sizes : List Nat
  col_local_sizes : List Nat
  comm : Comm
deriving DecidableEq, Repr

/-- The body of the recording loop at cell `(r, c)`: a null cell records
nothing; a real block overwrites the communicator and the four size
entries for its row and column. -/
def scanCell (r c : Nat) (cell : Option PetscMat) (t : SizeTables) : SizeTables :=
  match cell with
  | none => t
  | some b =>
      { row_sizes := t.row_sizes.set r b.global_rows
        col_sizes := t.col_sizes.set c b.global_cols
        row_local_sizes := t.row_local_sizes.set r b.local_rows
        col_local_sizes := t.col_local_sizes.set c b.local_cols
        comm := b.comm }

/-- Inner loop of the recording scan over the cells of row `r`, starting
at column index `c`. -/
def scanRowAux (r : Nat) : Nat → List (Option PetscMat) → SizeTables → SizeTables
  | _, [], t => t
  | c, cell :: rest, t => scanRowAux r (c + 1) rest (scanCell r c cell t)

/-- Outer loop of the recording scan, starting at row index `r`. -/
def scanGridAux : Nat → List (List (Option PetscMat)) → SizeTables → SizeTables
  | _, [], t => t
  | r, row :: rest, t => scanGridAux (r + 1) rest (scanRowAux r 0 row t)

/-- The last non-null entry of a list of cells, if any: the "last writer"
of the recording scan along one row or one column. -/
def lastReal : List (Option PetscMat) → Option PetscMat
  | [] => none
  | cell :: rest =>
      match lastReal rest with
      | some b => some b
      | none => cell

/-- Column `c` of a grid, as the list of its cells from row 0 downwards
(the order the outer scan loop visits them). -/
def columnOf (c : Nat) (grid : List (List (Option PetscMat))) :
    List (Option PetscMat) :=
  grid.map (fun row => row.getD c none)

/-- Initial size tables: `m` rows and `n` columns of zeros, communicator
`MPI_COMM_NULL`. -/
def initTables (m n : Nat) : SizeTables :=
  ⟨List.replicate m 0, List.replicate n 0, List.replicate m 0,
    List.replicate n 0, Comm.null⟩

/-- The recorded size tables of `collect_sizes` on the current grid. -/
def scanTables (s : BSM) : SizeTables :=
  scanGridAux 0 s.sub_objects (initTables s.n_block_rows s.n_block_cols)

/-- `create_dummy_mat(comm, lr, gr, lc, gc)` (lines 25–54): creates an
empty (zero-nonzero) matrix of the given local/global sizes on `comm`.
Creation on the null communicator fails natively and surfaces as a
backend error through `AssertThrow(..., ExcPETScError(...))`. -/
def create_dummy_mat (comm : Comm) (hid lr gr lc gc : Nat) : Except Err PetscMat :=
  if comm = Comm.null then .error Err.backendError
  else .ok ⟨hid, comm, lr, gr, lc, gc, 0⟩

/-- Inner loop of the dummy-filling pass of `collect_sizes`
(lines 189–209) over the cells of row `r`, starting at column `c`,
threading the fresh-handle allocator `k`: a real cell is kept, a null
cell is replaced by `new BlockType(create_dummy_mat(...))` with the
recorded sizes of its row and column. -/
def fillRowAux (t : SizeTables) (r : Nat) :
    Nat → List (Option PetscMat) → Nat → Except Err (List (Option PetscMat) × Nat)
  | _, [], k => .ok ([], k)
  | c, some b :: rest, k =>
      match fillRowAux t r (c + 1) rest k with
      | .error e => .error e
      | .ok (rest', k') => .ok (some b :: rest', k')
  | c, none :: rest, k =>
      match create_dummy_mat t.comm k (t.row_local_sizes.getD r 0)
          (t.row_sizes.getD r 0) (t.col_local_sizes.getD c 0)
          (t.col_sizes.getD c 0) with
      | .error e => .error e
      | .ok d =>
          match fillRowAux t r (c + 1) rest (k + 1) with
          | .error e => .error e
          | .ok (rest', k') => .ok (some d :: rest', k')

/-- Outer loop of the dummy-filling pass, starting at row index `r`. -/
def fillGridAux (t : SizeTables) :
    Nat → List (List (Option PetscMat)) → Nat →
      Except Err (List (List (Option PetscMat)) × Nat)
  | _, [], k => .ok ([], k)
  | r, row :: rest, k =>
      match fillRowAux t r 0 row k with
      | .error e => .error e
      | .ok (row', k') =>
          match fillGridAux t (r + 1) rest k' with
          | .error e => .error e
          | .ok (rest', k'') => .ok (row' :: rest', k'')

/-- Modelled from the spec: `BaseClass::collect_sizes()` (the base-class
member `BlockMatrixBase::collect_sizes`, not part of the shown source)
recomputes the row `BlockIndices` from the final per-row global sizes,
read from column 0's blocks after placeholder fill-in. -/
def baseRowSizes (grid : List (List (Option PetscMat))) : List Nat :=
  grid.map (fun row => ((row.getD 0 none).map PetscMat.global_rows).getD 0)

/-- Modelled from the spec: the column half of `BaseClass::collect_sizes()`,
reading the per-column global sizes from row 0's blocks after fill-in. -/
def baseColSizes (grid : List (List (Option PetscMat))) : List Nat :=
  (grid.getD 0 []).map (fun cell => ((cell.map PetscMat.global_cols).getD 0))

/-- The row-major array `psub_objects` of the grid cells' native handle
identities (line 215–218): `psub_objects[r * n + c] =
sub_objects[r][c]->petsc_matrix()`. -/
def psub_objects (grid : List (List (Option PetscMat))) : List Nat :=
  grid.flatMap (fun row => row.map (fun cell => (cell.map PetscMat.hid).getD 0))

/-- `MatCreateNest(comm, m, NULL, n, NULL, psub, &nest)`: builds a fresh
nest handle referencing the given sub-handles in row-major order; fails
natively (backend error) on the null communicator. -/
def MatCreateNest (comm : Comm) (hid m n : Nat) (subs : List Nat) :
    Except Err NestMat :=
  if comm = Comm.null then .error Err.backendError
  else .ok ⟨hid, comm, m, n, subs⟩

/-- `BlockSparseMatrix::collect_sizes()` (lines 159–222): record sizes
and the communicator from the real blocks, fill every null cell with a
dummy block of the recorded sizes, recompute the base-class block
indices, destroy the previous `petsc_nest_matrix`, and create a new nest
from the row-major list of the cells' native handles. -/
def collect_sizes (s : BSM) : Except Err BSM :=
  let t := scanTables s
  match fillGridAux t 0 s.sub_objects s.next_hid with
  | .error e => .error e
  | .ok (grid', k) =>
      match MatCreateNest t.comm k s.n_block_rows s.n_block_cols
          (psub_objects grid') with
      | .error e => .error e
      | .ok nm =>
          .ok { n_block_rows := s.n_block_rows
                n_block_cols := s.n_block_cols
                sub_objects := grid'
                row_block_sizes := baseRowSizes grid'
                col_block_sizes := baseColSizes grid'
                petsc_nest_matrix := some nm
                next_hid := k + 1 }

/-- `BlockSparseMatrix::n_nonzero_elements()` (lines 252–261): the double
loop summing `block(r, c).n_nonzero_elements()` over the declared block
shape. -/
def n_nonzero_elements (s : BSM) : Nat :=
  ((List.range s.n_block_rows).map (fun r =>
    ((List.range s.n_block_cols).map (fun c =>
      ((blockAt s r c).map PetscMat.nnz).getD 0)).sum)).sum

/-- Modelled from the spec: `m()` of the block matrix, the total size of
the row `BlockIndices` — the sum of the per-row block sizes. -/
def total_m (s : BSM) : Nat := s.row_block_sizes.sum

/-- Modelled from the spec: `n()` of the block matrix, the total size of
the column `BlockIndices` — the sum of the per-column block sizes. -/
def total_n (s : BSM) : Nat := s.col_block_sizes.sum

/-- `PETSC_COMM_SELF`, the process-local default communicator. -/
def PETSC_COMM_SELF : Comm := Comm.self

/-- `BlockSparseMatrix::get_mpi_communicator()` (lines 265–274). The
function-local `static MPI_Comm comm = PETSC_COMM_SELF` is modelled as an
explicit process-wide state threaded through calls: the input
`static_comm` is its value on entry, the second component of the result
its value after the call. `PetscObjectComm` on a null `petsc_nest_matrix`
pointer yields `MPI_COMM_NULL`; on a live nest it yields the nest's
communicator. -/
def get_mpi_communicator (static_comm : Comm) (s : BSM) : Comm × Comm :=
  let pcomm : Comm :=
    match s.petsc_nest_matrix with
    | some nm => nm.comm
    | none => Comm.null
  if pcomm ≠ Comm.null then (pcomm, pcomm) else (static_comm, static_comm)

/-- Modelled from the spec: `clear()` (a base-class/`BlockMatrixBase`
member, not part of the shown source) destroys the aggregate, destroys
and removes all blocks, and resets the grid to 0×0. -/
def clear (s : BSM) : BSM :=
  { n_block_rows := 0, n_block_cols := 0, sub_objects := [],
    row_block_sizes := [], col_block_sizes := [],
    petsc_nest_matrix := none, next_hid := s.next_hid }

/-- A default-constructed `BlockType()` (a `PETScWrappers::MPI::SparseMatrix`):
wraps an empty sequential matrix on `PETSC_COMM_SELF` with all sizes and
nonzero count zero. -/
def emptyBlock (hid : Nat) : PetscMat :=
  ⟨hid, Comm.self, 0, 0, 0, 0, 0⟩

/-- `BlockSparseMatrix::reinit(n_block_rows, n_block_columns)`
(lines 83–105): clear, resize the grid, zero both block-index tables,
and fill every cell with a default-constructed block. -/
def reinit_mn (n_block_rows n_block_columns : Nat) (s : BSM) : BSM :=
  let s0 := clear s
  { n_block_rows := n_block_rows
    n_block_cols := n_block_columns
    sub_objects := (List.range n_block_rows).map (fun r =>
      (List.range n_block_columns).map (fun c =>
        some (emptyBlock (s0.next_hid + r * n_block_columns + c))))
    row_block_sizes := List.replicate n_block_rows 0
    col_block_sizes := List.replicate n_block_columns 0
    petsc_nest_matrix := s0.petsc_nest_matrix
    next_hid := s0.next_hid + n_block_rows * n_block_columns }

/-- `BlockSparseMatrix::operator=` (lines 63–69): delegates to
`BaseClass::operator=(m)` and returns; the derived member
`petsc_nest_matrix` is not touched. The base-class assignment is
modelled from the spec: it copies the block-grid state (grid shape,
blocks, block-index tables) of the source. -/
def operator_assign (target source : BSM) : BSM :=
  { n_block_rows := source.n_block_rows
    n_block_cols := source.n_block_cols
    sub_objects := source.sub_objects
    row_block_sizes := source.row_block_sizes
    col_block_sizes := source.col_block_sizes
    petsc_nest_matrix := target.petsc_nest_matrix
    next_hid := target.next_hid }

/-- A deal.II `IndexSet` describing one axis partition of one block row
or column, by its query surface: `size` is the global size (`size()`),
`n_elements` the number of locally owned indices (`n_elements()`). -/
structure IndexSet where
  size : Nat
  n_elements : Nat
deriving DecidableEq, Repr

/-- One block of a `BlockDynamicSparsityPattern`: global row and column
counts and the number of nonzero entries of the pattern. -/
structure DSPBlock where
  n_rows : Nat
  n_cols : Nat
  n_nonzeros : Nat
deriving DecidableEq, Repr

/-- A `BlockDynamicSparsityPattern`: the block shape and the grid of
per-block patterns. -/
structure BDSP where
  n_block_rows : Nat
  n_block_cols : Nat
  blocks : List (List DSPBlock)
deriving DecidableEq, Repr

/-- `bdsp.block(r, c)`. -/
def BDSP.block (bdsp : BDSP) (r c : Nat) : DSPBlock :=
  (bdsp.blocks.getD r []).getD c ⟨0, 0, 0⟩

/-- Observable events of the four-argument `reinit` (lines 110–147), in
program order: the two per-cell size assertions (lines 136–139) with
their outcome, and the native creation of that cell's block resource
(`p->reinit(rows[r], cols[c], bdsp.block(r, c), com)`, line 142). The
native calls made later by `collect_sizes` (line 146) all happen after
every event below and are not traced. -/
inductive Ev where
  | rowSizeAssert (r c : Nat) (ok : Bool)
  | colSizeAssert (r c : Nat) (ok : Bool)
  | nativeCreate (r c : Nat)
deriving DecidableEq, Repr

/-- `SparseMatrix::reinit(rows[r], cols[c], bdsp.block(r, c), com)`: the
block created at cell `(r, c)`, with local sizes from the owned-element
counts of the two index sets, global sizes from their sizes, and the
nonzero count of the pattern. -/
def block_reinit (row col : IndexSet) (dsp : DSPBlock) (com : Comm)
    (hid : Nat) : PetscMat :=
  ⟨hid, com, row.n_elements, row.size, col.n_elements, col.size, dsp.n_nonzeros⟩

/-- The row-major worklist of cell coordinates of an `m × n` grid. -/
def rowMajor (m n : Nat) : List (Nat × Nat) :=
  (List.range m).flatMap (fun r => (List.range n).map (fun c => (r, c)))

/-- The per-cell body of the four-argument `reinit` over a worklist of
cells: assert the row partition size against the pattern's row count and
the column partition size against its column count, then create the
cell's native block; a failed assertion aborts with `invalidSize`, after
the events already emitted. Returns the trace together with the created
blocks (keyed by coordinate) and the advanced handle allocator. -/
def reinitCells (rows cols : List IndexSet) (bdsp : BDSP) (com : Comm) :
    List (Nat × Nat) → Nat →
      List Ev × Except Err (List ((Nat × Nat) × PetscMat) × Nat)
  | [], k => ([], .ok ([], k))
  | (r, c) :: rest, k =>
      if (rows.getD r ⟨0, 0⟩).size = (bdsp.block r c).n_rows then
        if (cols.getD c ⟨0, 0⟩).size = (bdsp.block r c).n_cols then
          if com = Comm.null then
            ([Ev.rowSizeAssert r c true, Ev.colSizeAssert r c true],
              .error Err.backendError)
          else
            let b := block_reinit (rows.getD r ⟨0, 0⟩) (cols.getD c ⟨0, 0⟩)
              (bdsp.block r c) com k
            let res := reinitCells rows cols bdsp com rest (k + 1)
            (Ev.rowSizeAssert r c true :: Ev.colSizeAssert r c true ::
              Ev.nativeCreate r c :: res.1,
              match res.2 with
              | .error e => .error e
              | .ok (cells, k') => .ok (((r, c), b) :: cells, k'))
        else
          ([Ev.rowSizeAssert r c true, Ev.colSizeAssert r c false],
            .error Err.invalidSize)
      else
        ([Ev.rowSizeAssert r c false], .error Err.invalidSize)

/-- `BlockSparseMatrix::reinit(rows, cols, bdsp, com)` (lines 110–147):
assert the partition counts against the block shape, clear, resize the
grid, set the block-index tables from the pattern, construct every cell
from its partitions and pattern (with the per-cell assertions), then
call `collect_sizes`. Returns the event trace of the cell loop together
with the outcome. -/
def reinit_rows_cols (rows cols : List IndexSet) (bdsp : BDSP) (com : Comm)
    (s : BSM) : List Ev × Except Err BSM :=
  if rows.length = bdsp.n_block_rows ∧ cols.length = bdsp.n_block_cols then
    let s0 := clear s
    let res := reinitCells rows cols bdsp com
      (rowMajor bdsp.n_block_rows bdsp.n_block_cols) s0.next_hid
    (res.1,
      match res.2 with
      | .error e => .error e
      | .ok (cells, k) =>
          collect_sizes
            { n_block_rows := bdsp.n_block_rows
              n_block_cols := bdsp.n_block_cols
              sub_objects := (List.range bdsp.n_block_rows).map (fun r =>
                (List.range bdsp.n_block_cols).map (fun c =>
                  cells.lookup (r, c)))
              row_block_sizes := (List.range bdsp.n_block_rows).map (fun r =>
                (bdsp.block r 0).n_rows)
              col_block_sizes := (List.range bdsp.n_block_cols).map (fun c =>
                (bdsp.block 0 c).n_cols)
              petsc_nest_matrix := s0.petsc_nest_matrix
              next_hid := k })
  else ([], .error Err.invalidSize)

/-- `BlockSparseMatrix::reinit(sizes, bdsp, com)` (lines 149–155): the
single-partition overload, delegating with the same sequence for rows
and columns. -/
def reinit_sizes (sizes : List IndexSet) (bdsp : BDSP) (com : Comm)
    (s : BSM) : List Ev × Except Err BSM :=
  reinit_rows_cols sizes sizes bdsp com s

/-- True when, in the trace, every size assertion happens before every
native creation (the ordering the propagation-policy claim asserts). -/
def allAssertsBeforeCreates : List Ev → Bool
  | [] => true
  | Ev.nativeCreate _ _ :: rest =>
      rest.all (fun e =>
        match e with
        | Ev.rowSizeAssert _ _ _ => false
        | Ev.colSizeAssert _ _ _ => false
        | Ev.nativeCreate _ _ => true) && allAssertsBeforeCreates rest
  | _ :: rest => allAssertsBeforeCreates rest

/-- The trace the cell loop emits on a live communicator: for each cell
of the worklist in order, the row assertion, then (if it passed) the
column assertion, then (if both passed) that cell's native creation;
the loop stops at the first failed assertion. -/
def cellTrace (rows cols : List IndexSet) (bdsp : BDSP) :
    List (Nat × Nat) → List Ev
  | [] => []
  | (r, c) :: rest =>
      if (rows.getD r ⟨0, 0⟩).size = (bdsp.block r c).n_rows then
        if (cols.getD c ⟨0, 0⟩).size = (bdsp.block r c).n_cols then
          Ev.rowSizeAssert r c true :: Ev.colSizeAssert r c true ::
            Ev.nativeCreate r c :: cellTrace rows cols bdsp rest
        else [Ev.rowSizeAssert r c true, Ev.colSizeAssert r c false]
      else [Ev.rowSizeAssert r c false]

/-- A concrete nest handle on a user communicator, used as input. -/
def nestA : NestMat := ⟨7, Comm.user 5, 1, 1, [3]⟩

/-- A state whose aggregate handle exists and lives on `Comm.user 5`. -/
def stateWithNest : BSM :=
  ⟨1, 1, [[some ⟨3, Comm.user 5, 1, 1, 1, 1, 0⟩]], [1], [1], some nestA, 8⟩

/-- A state with no aggregate handle (before first synchronization). -/
def stateNoNest : BSM := initialBSM

/-- Concrete partitions for the four-argument reinit. -/
def cexRows : List IndexSet := [⟨3, 3⟩, ⟨4, 4⟩]

/-- Concrete column partitions for the four-argument reinit. -/
def cexCols : List IndexSet := [⟨3, 3⟩, ⟨4, 4⟩]

/-- A 2×2 sparsity-pattern grid whose block at `(1, 0)` declares 5 rows,
disagreeing with `cexRows[1].size = 4`; blocks `(0, 0)` and `(0, 1)`
agree with the partitions. -/
def cexBdsp : BDSP := ⟨2, 2, [[⟨3, 3, 5⟩, ⟨3, 4, 0⟩], [⟨5, 3, 0⟩, ⟨4, 4, 7⟩]]⟩

/-- A fully assigned 1×1 state: one 2×2 block with 3 nonzeros. -/
def c1State : BSM :=
  ⟨1, 1, [[some ⟨0, Comm.user 0, 2, 2, 2, 2, 3⟩]], [0], [0], none, 1⟩

/-- The state `collect_sizes` produces from `c1State`. -/
def c1StateSynced : BSM :=
  ⟨1, 1, [[some ⟨0, Comm.user 0, 2, 2, 2, 2, 3⟩]], [2], [2],
    some ⟨1, Comm.user 0, 1, 1, [0]⟩, 2⟩

/-- The state a second `collect_sizes` produces from `c1StateSynced`. -/
def c6StateTwice : BSM :=
  ⟨1, 1, [[some ⟨0, Comm.user 0, 2, 2, 2, 2, 3⟩]], [2], [2],
    some ⟨2, Comm.user 0, 1, 1, [0]⟩, 3⟩

/-- The 2×2 scenario grid of the spec: a real 3×3 block with 5 nonzeros
at `(0, 0)`, a real 4×4 block with 7 nonzeros at `(1, 1)`, and null cells
at `(0, 1)` and `(1, 0)`. -/
def scenarioState : BSM :=
  ⟨2, 2,
    [[some ⟨0, Comm.user 0, 3, 3, 3, 3, 5⟩, none],
     [none, some ⟨1, Comm.user 0, 4, 4, 4, 4, 7⟩]],
    [0, 0], [0, 0], none, 2⟩

/-- The state `collect_sizes` produces from `scenarioState`: the null
cells filled with 3×4 and 4×3 zero-nonzero dummies. -/
def scenarioSynced : BSM :=
  ⟨2, 2,
    [[some ⟨0, Comm.user 0, 3, 3, 3, 3, 5⟩,
      some ⟨2, Comm.user 0, 3, 3, 4, 4, 0⟩],
     [some ⟨3, Comm.user 0, 4, 4, 3, 3, 0⟩,
      some ⟨1, Comm.user 0, 4, 4, 4, 4, 7⟩]],
    [3, 4], [3, 4], some ⟨4, Comm.user 0, 2, 2, [0, 2, 3, 1]⟩, 5⟩

/-- A fully assigned 2×2 state whose blocks disagree in size along every
row and column: row 0 holds a 3-row and a 9-row block, row 1 a 4-row and
a 6-row block; column 0 holds a 10-column and an 11-column block, column
1 a 20-column and a 21-column block. -/
def scanWitnessState : BSM :=
  ⟨2, 2,
    [[some ⟨0, Comm.user 0, 3, 3, 10, 10, 1⟩,
      some ⟨1, Comm.user 0, 9, 9, 20, 20, 2⟩],
     [some ⟨2, Comm.user 0, 4, 4, 11, 11, 3⟩,
      some ⟨3, Comm.user 0, 6, 6, 21, 21, 4⟩]],
    [0, 0], [0, 0], none, 4⟩

/-- List.getD after an update at a different index is unchanged. -/
theorem getD_set_ne {α : Type} : ∀ (l : List α) (i j : Nat) (v d : α),
    i ≠ j → (l.set i v).getD j d = l.getD j d
  | [], _, _, _, _, _ => rfl
  | _ :: _, 0, 0, _, _, h => absurd rfl h
  | _ :: _, 0, _ + 1, _, _, _ => rfl
  | _ :: _, _ + 1, 0, _, _, _ => rfl
  | _ :: l, i + 1, j + 1, v, d, h =>
      getD_set_ne l i j v d (fun hh => h (congrArg Nat.succ hh))

/-- List.getD after an update at the same, in-bounds index is the new
value. -/
theorem getD_set_self {α : Type} : ∀ (l : List α) (i : Nat) (v d : α),
    i < l.length → (l.set i v).getD i d = v
  | [], i, _, _, h => absurd h (by simp)
  | _ :: _, 0, _, _, _ => rfl
  | _ :: l, i + 1, v, d, h =>
      getD_set_self l i v d (Nat.lt_of_succ_lt_succ h)

/-- List.getD on a replicated list with the replicated default. -/
theorem getD_replicate {α : Type} (a : α) :
    ∀ (m i : Nat), (List.replicate m a).getD i a = a
  | 0, _ => rfl
  | _ + 1, 0 => rfl
  | m + 1, i + 1 => getD_replicate a m i

/-- The recording scan preserves the lengths of all four size tables. -/
theorem scanRowAux_lengths (r : Nat) :
    ∀ (c : Nat) (row : List (Option PetscMat)) (t : SizeTables),
      (scanRowAux r c row t).row_sizes.length = t.row_sizes.length ∧
        (scanRowAux r c row t).row_local_sizes.length =
          t.row_local_sizes.length ∧
        (scanRowAux r c row t).col_sizes.length = t.col_sizes.length ∧
        (scanRowAux r c row t).col_local_sizes.length =
          t.col_local_sizes.length
  | _, [], _ => ⟨rfl, rfl, rfl, rfl⟩
  | c, cell :: rest, t => by
      have ih := scanRowAux_lengths r (c + 1) rest (scanCell r c cell t)
      simp only [scanRowAux]
      cases cell with
      | none => simpa [scanCell] using ih
      | some b => simpa [scanCell] using ih

/-- Row-size entries other than the scanned row are untouched by the
inner loop. -/
theorem scanRowAux_row_ne (r i : Nat) (h : i ≠ r) :
    ∀ (c : Nat) (row : List (Option PetscMat)) (t : SizeTables),
      (scanRowAux r c row t).row_sizes.getD i 0 = t.row_sizes.getD i 0 ∧
        (scanRowAux r c row t).row_local_sizes.getD i 0 =
          t.row_local_sizes.getD i 0
  | _, [], _ => ⟨rfl, rfl⟩
  | c, cell :: rest, t => by
      have ih := scanRowAux_row_ne r i h (c + 1) rest (scanCell r c cell t)
      simp only [scanRowAux]
      cases cell with
      | none => exact ih
      | some b =>
          exact ⟨ih.1.trans (getD_set_ne _ r i _ 0 (Ne.symm h)),
            ih.2.trans (getD_set_ne _ r i _ 0 (Ne.symm h))⟩

/-- After the inner loop over one row, the recorded row sizes of that row
are those of the last real block of the row (previous value if none). -/
theorem scanRowAux_row_self (r : Nat) :
    ∀ (c : Nat) (row : List (Option PetscMat)) (t : SizeTables),
      r < t.row_sizes.length → r < t.row_local_sizes.length →
      (scanRowAux r c row t).row_sizes.getD r 0 =
          ((lastReal row).map PetscMat.global_rows).getD
            (t.row_sizes.getD r 0) ∧
        (scanRowAux r c row t).row_local_sizes.getD r 0 =
          ((lastReal row).map PetscMat.local_rows).getD
            (t.row_local_sizes.getD r 0)
  | _, [], _, _, _ => ⟨rfl, rfl⟩
  | c, cell :: rest, t, h1, h2 => by
      have h1' : r < (scanCell r c cell t).row_sizes.length := by
        cases cell <;> simp [scanCell, h1]
      have h2' : r < (scanCell r c cell t).row_local_sizes.length := by
        cases cell <;> simp [scanCell, h2]
      have ih := scanRowAux_row_self r (c + 1) rest (scanCell r c cell t) h1' h2'
      simp only [scanRowAux, lastReal]
      cases hl : lastReal rest with
      | some b => rw [hl] at ih; exact ih
      | none =>
          rw [hl] at ih
          cases cell with
          | none => exact ih
          | some b0 =>
              refine ⟨ih.1.trans ?_, ih.2.trans ?_⟩
              · simpa [scanCell] using getD_set_self t.row_sizes r b0.global_rows 0 h1
              · simpa [scanCell] using
                  getD_set_self t.row_local_sizes r b0.local_rows 0 h2

/-- Row-size entries below the starting row are untouched by the outer
scan loop. -/
theorem scanGridAux_row_lt (i : Nat) :
    ∀ (r0 : Nat) (grid : List (List (Option PetscMat))) (t : SizeTables),
      i < r0 →
      (scanGridAux r0 grid t).row_sizes.getD i 0 = t.row_sizes.getD i 0 ∧
        (scanGridAux r0 grid t).row_local_sizes.getD i 0 =
          t.row_local_sizes.getD i 0
  | _, [], _, _ => ⟨rfl, rfl⟩
  | r0, row :: rest, t, h => by
      have ih := scanGridAux_row_lt i (r0 + 1) rest (scanRowAux r0 0 row t)
        (Nat.lt_succ_of_lt h)
      have hne := scanRowAux_row_ne r0 i (Nat.ne_of_lt h) 0 row t
      simp only [scanGridAux]
      exact ⟨ih.1.trans hne.1, ih.2.trans hne.2⟩

/-- After the full scan, the recorded sizes of row `r0 + j` are those of
the last real block of that row of the grid. -/
theorem scanGridAux_row :
    ∀ (grid : List (List (Option PetscMat))) (r0 j : Nat) (t : SizeTables),
      j < grid.length → r0 + j < t.row_sizes.length →
      r0 + j < t.row_local_sizes.length →
      (scanGridAux r0 grid t).row_sizes.getD (r0 + j) 0 =
          ((lastReal (grid.getD j [])).map PetscMat.global_rows).getD
            (t.row_sizes.getD (r0 + j) 0) ∧
        (scanGridAux r0 grid t).row_local_sizes.getD (r0 + j) 0 =
          ((lastReal (grid.getD j [])).map PetscMat.local_rows).getD
            (t.row_local_sizes.getD (r0 + j) 0)
  | [], _, _, _, h, _, _ => absurd h (by simp)
  | row :: rest, r0, 0, t, _, h1, h2 => by
      rw [Nat.add_zero] at h1 h2 ⊢
      have hlt := scanGridAux_row_lt r0 (r0 + 1) rest (scanRowAux r0 0 row t)
        (Nat.lt_succ_self r0)
      have hself := scanRowAux_row_self r0 0 row t h1 h2
      simp only [scanGridAux]
      exact ⟨hlt.1.trans hself.1, hlt.2.trans hself.2⟩
  | row :: rest, r0, j + 1, t, h, h1, h2 => by
      have hlen := scanRowAux_lengths r0 0 row t
      have hidx : (r0 + 1) + j = r0 + (j + 1) := by omega
      have hne : r0 + (j + 1) ≠ r0 := by omega
      have hne1 := scanRowAux_row_ne r0 (r0 + (j + 1)) hne 0 row t
      have ih := scanGridAux_row rest (r0 + 1) j (scanRowAux r0 0 row t)
        (Nat.lt_of_succ_lt_succ h)
        (by rw [hlen.1, hidx]; exact h1)
        (by rw [hlen.2.1, hidx]; exact h2)
      rw [hidx] at ih
      simp only [scanGridAux]
      have hgd : (row :: rest).getD (j + 1) ([] : List (Option PetscMat)) =
          rest.getD j [] := rfl
      rw [hgd]
      exact ⟨ih.1.trans (by rw [hne1.1]),
        ih.2.trans (by rw [hne1.2])⟩

/-- Column-size entries below the starting column are untouched by the
inner loop. -/
theorem scanRowAux_col_lt (i : Nat) :
    ∀ (r c0 : Nat) (row : List (Option PetscMat)) (t : SizeTables),
      i < c0 →
      (scanRowAux r c0 row t).col_sizes.getD i 0 = t.col_sizes.getD i 0 ∧
        (scanRowAux r c0 row t).col_local_sizes.getD i 0 =
          t.col_local_sizes.getD i 0
  | _, _, [], _, _ => ⟨rfl, rfl⟩
  | r, c0, cell :: rest, t, h => by
      have ih := scanRowAux_col_lt i r (c0 + 1) rest (scanCell r c0 cell t)
        (Nat.lt_succ_of_lt h)
      simp only [scanRowAux]
      cases cell with
      | none => exact ih
      | some b =>
          exact ⟨ih.1.trans (getD_set_ne _ c0 i _ 0 (Nat.ne_of_gt h)),
            ih.2.trans (getD_set_ne _ c0 i _ 0 (Nat.ne_of_gt h))⟩

/-- After the inner loop over one row, the recorded sizes of column
`c0 + j` are those of that row's cell at offset `j` (previous value if
the cell is null or absent). -/
theorem scanRowAux_col :
    ∀ (row : List (Option PetscMat)) (r c0 j : Nat) (t : SizeTables),
      c0 + j < t.col_sizes.length → c0 + j < t.col_local_sizes.length →
      (scanRowAux r c0 row t).col_sizes.getD (c0 + j) 0 =
          ((row.getD j none).map PetscMat.global_cols).getD
            (t.col_sizes.getD (c0 + j) 0) ∧
        (scanRowAux r c0 row t).col_local_sizes.getD (c0 + j) 0 =
          ((row.getD j none).map PetscMat.local_cols).getD
            (t.col_local_sizes.getD (c0 + j) 0)
  | [], _, _, j, _, _, _ => by
      constructor <;> simp [scanRowAux, List.getD]
  | cell :: rest, r, c0, 0, t, h1, h2 => by
      rw [Nat.add_zero] at h1 h2 ⊢
      have hlt := scanRowAux_col_lt c0 r (c0 + 1) rest (scanCell r c0 cell t)
        (Nat.lt_succ_self c0)
      simp only [scanRowAux]
      cases cell with
      | none => exact hlt
      | some b =>
          refine ⟨hlt.1.trans ?_, hlt.2.trans ?_⟩
          · simpa [scanCell] using getD_set_self t.col_sizes c0 b.global_cols 0 h1
          · simpa [scanCell] using
              getD_set_self t.col_local_sizes c0 b.local_cols 0 h2
  | cell :: rest, r, c0, j + 1, t, h1, h2 => by
      have hidx : (c0 + 1) + j = c0 + (j + 1) := by omega
      have hne : c0 ≠ c0 + (j + 1) := by omega
      have hlen : (scanCell r c0 cell t).col_sizes.length =
          t.col_sizes.length ∧
          (scanCell r c0 cell t).col_local_sizes.length =
            t.col_local_sizes.length := by
        cases cell <;> simp [scanCell]
      have ih := scanRowAux_col rest r (c0 + 1) j (scanCell r c0 cell t)
        (by rw [hlen.1, hidx]; exact h1)
        (by rw [hlen.2, hidx]; exact h2)
      rw [hidx] at ih
      have hprev : (scanCell r c0 cell t).col_sizes.getD (c0 + (j + 1)) 0 =
          t.col_sizes.getD (c0 + (j + 1)) 0 ∧
          (scanCell r c0 cell t).col_local_sizes.getD (c0 + (j + 1)) 0 =
            t.col_local_sizes.getD (c0 + (j + 1)) 0 := by
        cases cell with
        | none => exact ⟨rfl, rfl⟩
        | some b =>
            exact ⟨getD_set_ne _ c0 _ _ 0 hne, getD_set_ne _ c0 _ _ 0 hne⟩
      simp only [scanRowAux]
      have hgd : (cell :: rest).getD (j + 1) (none : Option PetscMat) =
          rest.getD j none := rfl
      rw [hgd]
      exact ⟨ih.1.trans (by rw [hprev.1]), ih.2.trans (by rw [hprev.2])⟩

/-- After the full scan, the recorded sizes of column `c` are those of
the last real block of that column of the grid. -/
theorem scanGridAux_col :
    ∀ (grid : List (List (Option PetscMat))) (r0 c : Nat) (t : SizeTables),
      c < t.col_sizes.length → c < t.col_local_sizes.length →
      (scanGridAux r0 grid t).col_sizes.getD c 0 =
          ((lastReal (columnOf c grid)).map PetscMat.global_cols).getD
            (t.col_sizes.getD c 0) ∧
        (scanGridAux r0 grid t).col_local_sizes.getD c 0 =
          ((lastReal (columnOf c grid)).map PetscMat.local_cols).getD
            (t.col_local_sizes.getD c 0)
  | [], _, _, _, _, _ => ⟨rfl, rfl⟩
  | row :: rest, r0, c, t, h1, h2 => by
      have hlen := scanRowAux_lengths r0 0 row t
      have ih := scanGridAux_col rest (r0 + 1) c (scanRowAux r0 0 row t)
        (by rw [hlen.2.2.1]; exact h1) (by rw [hlen.2.2.2]; exact h2)
      have hrow := scanRowAux_col row r0 0 c t
        (by rw [Nat.zero_add]; exact h1) (by rw [Nat.zero_add]; exact h2)
      rw [Nat.zero_add] at hrow
      have hcons : lastReal (columnOf c (row :: rest)) =
          match lastReal (columnOf c rest) with
          | some b => some b
          | none => row.getD c none := rfl
      rw [hcons]
      cases hl : lastReal (columnOf c rest) with
      | some b => rw [hl] at ih; exact ih
      | none =>
          rw [hl] at ih
          exact ⟨ih.1.trans hrow.1, ih.2.trans hrow.2⟩

/-- C5: during the size-recording scan of `collect_sizes`, for every row
`r` the recorded local/global row sizes are those of the last real
(non-null) block of row `r` in scan order (0 if the row has none), and
for every column `c` the recorded column sizes are those of the last
real block of that column in scan order (0 if none); the scan performs
no cross-checking, so blocks with disagreeing sizes in the same row or
column cause no error — the equations hold for every well-shaped grid. -/
theorem last_writer_wins_scan (s : BSM) (h : wellShaped s = true) :
    (∀ r, r < s.n_block_rows →
        (scanTables s).row_sizes.getD r 0 =
            ((lastReal (s.sub_objects.getD r [])).map
              PetscMat.global_rows).getD 0 ∧
          (scanTables s).row_local_sizes.getD r 0 =
            ((lastReal (s.sub_objects.getD r [])).map
              PetscMat.local_rows).getD 0) ∧
      ∀ c, c < s.n_block_cols →
        (scanTables s).col_sizes.getD c 0 =
            ((lastReal (columnOf c s.sub_objects)).map
              PetscMat.global_cols).getD 0 ∧
          (scanTables s).col_local_sizes.getD c 0 =
            ((lastReal (columnOf c s.sub_objects)).map
              PetscMat.local_cols).getD 0 := by
  have hshape : s.sub_objects.length = s.n_block_rows := by
    simp only [wellShaped, Bool.and_eq_true, decide_eq_true_eq] at h
    exact h.1
  constructor
  · intro r hr
    have hmain := scanGridAux_row s.sub_objects 0 r
      (initTables s.n_block_rows s.n_block_cols)
      (by rw [hshape]; exact hr)
      (by simpa [initTables, Nat.zero_add] using hr)
      (by simpa [initTables, Nat.zero_add] using hr)
    rw [Nat.zero_add] at hmain
    have hd1 : (initTables s.n_block_rows s.n_block_cols).row_sizes.getD r 0
        = 0 := getD_replicate 0 s.n_block_rows r
    have hd2 : (initTables s.n_block_rows
        s.n_block_cols).row_local_sizes.getD r 0 = 0 :=
      getD_replicate 0 s.n_block_rows r
    rw [hd1, hd2] at hmain
    exact hmain
  · intro c hc
    have hmain := scanGridAux_col s.sub_objects 0 c
      (initTables s.n_block_rows s.n_block_cols)
      (by simpa [initTables] using hc) (by simpa [initTables] using hc)
    have hd1 : (initTables s.n_block_rows s.n_block_cols).col_sizes.getD c 0
        = 0 := getD_replicate 0 s.n_block_cols c
    have hd2 : (initTables s.n_block_rows
        s.n_block_cols).col_local_sizes.getD c 0 = 0 :=
      getD_replicate 0 s.n_block_cols c
    rw [hd1, hd2] at hmain
    exact hmain

/-- Witness for C5 at a concrete 2×2 grid whose blocks disagree along
every row and column: the recorded sizes are the last blocks' sizes
(9 and 6 rows, 11 and 21 columns), and no error occurs. -/
theorem last_writer_wins_scan_witness :
    (scanTables scanWitnessState).row_sizes.getD 0 0 = 9 ∧
      (scanTables scanWitnessState).row_sizes.getD 1 0 = 6 ∧
      (scanTables scanWitnessState).col_sizes.getD 0 0 = 11 ∧
      (scanTables scanWitnessState).col_sizes.getD 1 0 = 21 :=
  ⟨((last_writer_wins_scan scanWitnessState (by decide)).1 0
      (by decide)).1,
    ((last_writer_wins_scan scanWitnessState (by decide)).1 1
      (by decide)).1,
    ((last_writer_wins_scan scanWitnessState (by decide)).2 0
      (by decide)).1,
    ((last_writer_wins_scan scanWitnessState (by decide)).2 1
      (by decide)).1⟩

/-- The trace of the cell loop of the four-argument `reinit` on a live
communicator is, cell by cell in row-major order: row assertion, column
assertion, native creation, stopping at the first failed assertion. -/
theorem reinitCells_trace (rows cols : List IndexSet) (bdsp : BDSP)
    (com : Comm) (hc : ¬com = Comm.null) :
    ∀ (ws : List (Nat × Nat)) (k : Nat),
      (reinitCells rows cols bdsp com ws k).1 = cellTrace rows cols bdsp ws
  | [], _ => rfl
  | (r, c) :: rest, k => by
      simp only [reinitCells, cellTrace]
      split
      · split
        · exact congrArg (fun l => Ev.rowSizeAssert r c true ::
            Ev.colSizeAssert r c true :: Ev.nativeCreate r c :: l)
            (reinitCells_trace rows cols bdsp com hc rest (k + 1))
        · rfl
      · rfl

/-- C9: for every index-set sequence, sparsity grid and communicator, the
single-partition overload `reinit(sizes, bdsp, com)` produces exactly the
same trace and state as `reinit(sizes, sizes, bdsp, com)`. -/
theorem reinit_single_partition_delegates (sizes : List IndexSet)
    (bdsp : BDSP) (com : Comm) (s : BSM) :
    reinit_sizes sizes bdsp com s = reinit_rows_cols sizes sizes bdsp com s :=
  rfl

/-- C10: copy assignment copies only the block-grid state (shape, blocks,
block-index tables) from the source and leaves the target's aggregate
handle field unchanged, so the aggregate does not reflect the newly
assigned blocks until the next synchronization. -/
theorem assign_preserves_nest (target source : BSM) :
    (operator_assign target source).petsc_nest_matrix =
        target.petsc_nest_matrix ∧
      (operator_assign target source).sub_objects = source.sub_objects ∧
      (operator_assign target source).n_block_rows = source.n_block_rows ∧
      (operator_assign target source).n_block_cols = source.n_block_cols ∧
      (operator_assign target source).row_block_sizes =
        source.row_block_sizes ∧
      (operator_assign target source).col_block_sizes =
        source.col_block_sizes :=
  ⟨rfl, rfl, rfl, rfl, rfl, rfl⟩

/-- C7 (counterexample): after an earlier call on a different instance
whose aggregate lived on `Comm.user 5`, a call on an instance with no
aggregate association returns `Comm.user 5`, not the process-local
default — the fallback is not independent of earlier calls. -/
theorem comm_fallback_not_independent :
    stateNoNest.petsc_nest_matrix = none ∧
      (get_mpi_communicator
          (get_mpi_communicator PETSC_COMM_SELF stateWithNest).2
          stateNoNest).1 ≠ PETSC_COMM_SELF := by
  decide

/-- C7 (amended): `get_mpi_communicator` returns the communicator
associated with the aggregate handle when that association exists; when
no aggregate exists it returns the current value of the process-wide
static fallback (initialized to `PETSC_COMM_SELF` but overwritten by
every call that finds an association), not a fixed default. -/
theorem comm_fallback_static :
    (∀ (st : Comm) (s : BSM) (nm : NestMat), s.petsc_nest_matrix = some nm →
        nm.comm ≠ Comm.null → get_mpi_communicator st s = (nm.comm, nm.comm)) ∧
      (∀ (st : Comm) (s : BSM), s.petsc_nest_matrix = none →
        get_mpi_communicator st s = (st, st)) := by
  constructor
  · intro st s nm h hnm
    simp [get_mpi_communicator, h, hnm]
  · intro st s h
    simp [get_mpi_communicator, h]

/-- Witness for the amended C7 theorem at the two concrete states. -/
theorem comm_fallback_static_witness :
    get_mpi_communicator PETSC_COMM_SELF stateWithNest =
        (Comm.user 5, Comm.user 5) ∧
      get_mpi_communicator (Comm.user 5) stateNoNest =
        (Comm.user 5, Comm.user 5) :=
  ⟨comm_fallback_static.1 PETSC_COMM_SELF stateWithNest nestA rfl
      (by decide),
    comm_fallback_static.2 (Comm.user 5) stateNoNest rfl⟩

/-- C3 (counterexample): `reinit(0, 0)` followed by `collect_sizes()` on
the block-free grid does not fail with a precondition violation — no such
check exists in the code. -/
theorem empty_grid_not_precondition_violation :
    collect_sizes (reinit_mn 0 0 initialBSM) ≠
      Except.error Err.preconditionViolation := by
  decide

/-- C3 (amended): on the block-free grid the operation still fails — it
reaches the native nest creation with the never-assigned null
communicator, which surfaces as a backend error (`ExcPETScError`), so no
empty aggregate is silently produced. -/
theorem empty_grid_backend_error :
    collect_sizes (reinit_mn 0 0 initialBSM) =
      Except.error Err.backendError := by
  decide

/-- C8 (counterexample): with partitions `cexRows`/`cexCols` and pattern
`cexBdsp`, the size assertion for cell `(1, 0)` fails only after the
native resources of cells `(0, 0)` and `(0, 1)` were already created, so
not every `InvalidSize` check is reported before the first native
creation. -/
theorem asserts_not_all_before_creates :
    allAssertsBeforeCreates
        (reinit_rows_cols cexRows cexCols cexBdsp (Comm.user 0)
          initialBSM).1 = false ∧
      (reinit_rows_cols cexRows cexCols cexBdsp (Comm.user 0)
          initialBSM).2 = Except.error Err.invalidSize := by
  decide

/-- C8 (amended): only the two partition-count assertions precede every
native call; the per-cell `InvalidSize` checks are interleaved with
construction — for each cell in row-major order the two checks for that
cell immediately precede that cell's native creation, and a failing check
aborts the loop there, after earlier cells' resources were created. -/
theorem asserts_interleaved_per_cell (rows cols : List IndexSet)
    (bdsp : BDSP) (com : Comm) (s : BSM) (hc : ¬com = Comm.null)
    (hr : rows.length = bdsp.n_block_rows)
    (hcl : cols.length = bdsp.n_block_cols) :
    (reinit_rows_cols rows cols bdsp com s).1 =
      cellTrace rows cols bdsp
        (rowMajor bdsp.n_block_rows bdsp.n_block_cols) := by
  simp only [reinit_rows_cols]
  rw [if_pos ⟨hr, hcl⟩]
  exact reinitCells_trace rows cols bdsp com hc _ _

/-- List.getD on an append, index inside the first part. -/
theorem getD_append_left {α : Type} :
    ∀ (l1 l2 : List α) (i : Nat) (d : α), i < l1.length →
      (l1 ++ l2).getD i d = l1.getD i d
  | [], _, _, _, h => absurd h (by simp)
  | _ :: _, _, 0, _, _ => rfl
  | _ :: l1, l2, i + 1, d, h =>
      getD_append_left l1 l2 i d (Nat.lt_of_succ_lt_succ h)

/-- List.getD on an append, index past the first part. -/
theorem getD_append_right {α : Type} :
    ∀ (l1 l2 : List α) (i : Nat) (d : α),
      (l1 ++ l2).getD (l1.length + i) d = l2.getD i d
  | [], l2, i, d => by simp
  | a :: l1, l2, i, d => by
      rw [show (a :: l1).length + i = (l1.length + i) + 1 from by
        simp [Nat.succ_add]]
      exact getD_append_right l1 l2 i d

/-- List.getD through a map, at an in-bounds index. -/
theorem getD_map_in {α β : Type} (f : α → β) :
    ∀ (l : List α) (i : Nat) (d1 : β) (d2 : α), i < l.length →
      (l.map f).getD i d1 = f (l.getD i d2)
  | [], _, _, _, h => absurd h (by simp)
  | _ :: _, 0, _, _, _ => rfl
  | _ :: l, i + 1, d1, d2, h =>
      getD_map_in f l i d1 d2 (Nat.lt_of_succ_lt_succ h)

/-- An in-bounds List.getD is a member of the list. -/
theorem getD_mem {α : Type} :
    ∀ (l : List α) (i : Nat) (d : α), i < l.length → l.getD i d ∈ l
  | [], _, _, h => absurd h (by simp)
  | a :: l, 0, _, _ => List.mem_cons_self a l
  | a :: l, i + 1, d, h =>
      List.mem_cons_of_mem a (getD_mem l i d (Nat.lt_of_succ_lt_succ h))

/-- Every in-bounds cell of a fully assigned grid is a real block. -/
theorem allAssigned_getD {grid : List (List (Option PetscMat))}
    (hall : allAssigned grid = true) {r c : Nat} (hr : r < grid.length)
    (hc : c < (grid.getD r []).length) :
    ∃ b, (grid.getD r []).getD c none = some b := by
  simp only [allAssigned, List.all_eq_true] at hall
  exact Option.isSome_iff_exists.mp
    (hall _ (getD_mem grid r [] hr) _ (getD_mem (grid.getD r []) c none hc))

/-- The dummy-filling inner loop is the identity on a fully real row. -/
theorem fillRowAux_ok_of_allSome (t : SizeTables) (r : Nat) :
    ∀ (c : Nat) (row : List (Option PetscMat)) (k : Nat),
      row.all Option.isSome = true → fillRowAux t r c row k = .ok (row, k)
  | _, [], _, _ => rfl
  | c, some b :: rest, k, h => by
      simp only [fillRowAux]
      rw [fillRowAux_ok_of_allSome t r (c + 1) rest k (by simpa using h)]
  | _, none :: _, _, h => by simp at h

/-- The dummy-filling pass is the identity on a fully assigned grid. -/
theorem fillGridAux_ok_of_allSome (t : SizeTables) :
    ∀ (r : Nat) (grid : List (List (Option PetscMat))) (k : Nat),
      allAssigned grid = true → fillGridAux t r grid k = .ok (grid, k)
  | _, [], _, _ => rfl
  | r, row :: rest, k, h => by
      have hh : row.all Option.isSome = true ∧ allAssigned rest = true := by
        simpa [allAssigned] using h
      simp only [fillGridAux, fillRowAux_ok_of_allSome t r 0 row k hh.1,
        fillGridAux_ok_of_allSome t (r + 1) rest k hh.2]

/-- Full characterization of a successful dummy-filling inner loop: the
row keeps its length, the handle allocator does not decrease, every cell
of the result is real, real cells are kept as they were, and every null
cell is replaced by a dummy with the recorded sizes of its row and
column, zero nonzeros and the recorded communicator. -/
theorem fillRowAux_spec (t : SizeTables) (r : Nat) :
    ∀ (c : Nat) (row : List (Option PetscMat)) (k : Nat)
      (row' : List (Option PetscMat)) (k' : Nat),
      fillRowAux t r c row k = .ok (row', k') →
      row'.length = row.length ∧ k ≤ k' ∧
        row'.all Option.isSome = true ∧
        ∀ j, j < row.length →
          (∀ b, row.getD j none = some b → row'.getD j none = some b) ∧
          (row.getD j none = none → ∃ i, row'.getD j none =
            some ⟨i, t.comm, t.row_local_sizes.getD r 0,
              t.row_sizes.getD r 0, t.col_local_sizes.getD (c + j) 0,
              t.col_sizes.getD (c + j) 0, 0⟩)
  | _, [], k, row', k', h => by
      simp only [fillRowAux, Except.ok.injEq, Prod.mk.injEq] at h
      refine ⟨by rw [← h.1], Nat.le_of_eq h.2, by rw [← h.1]; rfl,
        fun j hj => absurd hj (by simp)⟩
  | c, some b :: rest, k, row', k', h => by
      simp only [fillRowAux] at h
      cases hrec : fillRowAux t r (c + 1) rest k with
      | error e => rw [hrec] at h; exact absurd h (by simp)
      | ok p =>
          obtain ⟨rest', k''⟩ := p
          rw [hrec] at h
          simp only [Except.ok.injEq, Prod.mk.injEq] at h
          obtain ⟨h1, h2⟩ := h
          have ih := fillRowAux_spec t r (c + 1) rest k rest' k'' hrec
          subst h2
          rw [← h1]
          refine ⟨by simp [ih.1], ih.2.1, by simp [ih.2.2.1], ?_⟩
          intro j hj
          cases j with
          | zero =>
              exact ⟨fun b0 hb0 => by rw [← hb0]; rfl,
                fun hn => by simp at hn⟩
          | succ j =>
              have hj' : j < rest.length := by simpa using hj
              have hcell := ih.2.2.2 j hj'
              refine ⟨hcell.1, ?_⟩
              intro hn
              obtain ⟨i, hi⟩ := hcell.2 hn
              exact ⟨i, by
                rw [show c + (j + 1) = (c + 1) + j from by omega]
                exact hi⟩
  | c, none :: rest, k, row', k', h => by
      simp only [fillRowAux, create_dummy_mat] at h
      by_cases hc : t.comm = Comm.null
      · rw [if_pos hc] at h; exact absurd h (by simp)
      · rw [if_neg hc] at h
        cases hrec : fillRowAux t r (c + 1) rest (k + 1) with
        | error e => rw [hrec] at h; exact absurd h (by simp)
        | ok p =>
            obtain ⟨rest', k''⟩ := p
            rw [hrec] at h
            simp only [Except.ok.injEq, Prod.mk.injEq] at h
            obtain ⟨h1, h2⟩ := h
            have ih := fillRowAux_spec t r (c + 1) rest (k + 1) rest' k'' hrec
            subst h2
            rw [← h1]
            refine ⟨by simp [ih.1], Nat.le_of_succ_le ih.2.1,
              by simp [ih.2.2.1], ?_⟩
            intro j hj
            cases j with
            | zero =>
                exact ⟨fun b0 hb0 => by simp at hb0, fun _ => ⟨k, rfl⟩⟩
            | succ j =>
                have hj' : j < rest.length := by simpa using hj
                have hcell := ih.2.2.2 j hj'
                refine ⟨hcell.1, ?_⟩
                intro hn
                obtain ⟨i, hi⟩ := hcell.2 hn
                exact ⟨i, by
                  rw [show c + (j + 1) = (c + 1) + j from by omega]
                  exact hi⟩

/-- Full characterization of a successful dummy-filling pass over the
grid: shape preserved, handle allocator monotone, result fully assigned,
real cells kept, null cells replaced by correctly sized dummies. -/
theorem fillGridAux_spec (t : SizeTables) :
    ∀ (r0 : Nat) (grid : List (List (Option PetscMat))) (k : Nat)
      (grid' : List (List (Option PetscMat))) (k' : Nat),
      fillGridAux t r0 grid k = .ok (grid', k') →
      grid'.length = grid.length ∧ k ≤ k' ∧ allAssigned grid' = true ∧
        ∀ j, j < grid.length →
          (grid'.getD j []).length = (grid.getD j []).length ∧
          ∀ c, c < (grid.getD j []).length →
            (∀ b, (grid.getD j []).getD c none = some b →
              (grid'.getD j []).getD c none = some b) ∧
            ((grid.getD j []).getD c none = none →
              ∃ i, (grid'.getD j []).getD c none =
                some ⟨i, t.comm, t.row_local_sizes.getD (r0 + j) 0,
                  t.row_sizes.getD (r0 + j) 0,
                  t.col_local_sizes.getD c 0, t.col_sizes.getD c 0, 0⟩)
  | _, [], k, grid', k', h => by
      simp only [fillGridAux, Except.ok.injEq, Prod.mk.injEq] at h
      refine ⟨by rw [← h.1], Nat.le_of_eq h.2, by rw [← h.1]; rfl,
        fun j hj => absurd hj (by simp)⟩
  | r0, row :: rest, k, grid', k', h => by
      simp only [fillGridAux] at h
      cases hrow : fillRowAux t r0 0 row k with
      | error e => simp only [hrow] at h; exact absurd h (by simp)
      | ok p =>
          obtain ⟨row', k1⟩ := p
          simp only [hrow] at h
          cases hrest : fillGridAux t (r0 + 1) rest k1 with
          | error e => simp only [hrest] at h; exact absurd h (by simp)
          | ok q =>
              obtain ⟨rest', k2⟩ := q
              simp only [hrest, Except.ok.injEq, Prod.mk.injEq] at h
              obtain ⟨h1, h2⟩ := h
              have ihrow := fillRowAux_spec t r0 0 row k row' k1 hrow
              have ihrest := fillGridAux_spec t (r0 + 1) rest k1 rest' k2 hrest
              subst h2
              rw [← h1]
              refine ⟨by simp [ihrest.1], le_trans ihrow.2.1 ihrest.2.1,
                ?_, ?_⟩
              · have hcons : allAssigned (row' :: rest') =
                    (row'.all Option.isSome && allAssigned rest') := rfl
                rw [hcons, ihrow.2.2.1, ihrest.2.2.1]
                rfl
              · intro j hj
                cases j with
                | zero =>
                    refine ⟨ihrow.1, ?_⟩
                    intro c hc
                    have hcell := ihrow.2.2.2 c (by simpa using hc)
                    refine ⟨hcell.1, ?_⟩
                    intro hn
                    obtain ⟨i, hi⟩ := hcell.2 hn
                    rw [Nat.zero_add] at hi
                    exact ⟨i, hi⟩
                | succ j =>
                    have hj' : j < rest.length := by simpa using hj
                    have hcell := ihrest.2.2.2 j hj'
                    refine ⟨hcell.1, ?_⟩
                    intro c hc
                    have h2c := hcell.2 c hc
                    refine ⟨h2c.1, ?_⟩
                    intro hn
                    obtain ⟨i, hi⟩ := h2c.2 hn
                    exact ⟨i, by
                      rw [show r0 + (j + 1) = (r0 + 1) + j from by omega]
                      exact hi⟩

/-- Inversion of a successful `collect_sizes`: the dummy fill succeeded,
the recorded communicator is live, and the result state is exactly the
filled grid with recomputed block indices and a fresh nest built from
the row-major sub-handle list. -/
theorem collect_sizes_ok {s s' : BSM} (h : collect_sizes s = .ok s') :
    ∃ grid' k,
      fillGridAux (scanTables s) 0 s.sub_objects s.next_hid =
        .ok (grid', k) ∧
      ¬(scanTables s).comm = Comm.null ∧
      s' = { n_block_rows := s.n_block_rows,
             n_block_cols := s.n_block_cols,
             sub_objects := grid',
             row_block_sizes := baseRowSizes grid',
             col_block_sizes := baseColSizes grid',
             petsc_nest_matrix := some ⟨k, (scanTables s).comm,
               s.n_block_rows, s.n_block_cols, psub_objects grid'⟩,
             next_hid := k + 1 } := by
  simp only [collect_sizes] at h
  cases hf : fillGridAux (scanTables s) 0 s.sub_objects s.next_hid with
  | error e => rw [hf] at h; exact absurd h (by simp)
  | ok p =>
      obtain ⟨grid', k⟩ := p
      rw [hf] at h
      simp only [MatCreateNest] at h
      by_cases hc : (scanTables s).comm = Comm.null
      · rw [if_pos hc] at h; exact absurd h (by simp)
      · rw [if_neg hc] at h
        simp only [Except.ok.injEq] at h
        exact ⟨grid', k, rfl, hc, h.symm⟩

/-- Sum over a mapped range as a Finset sum. -/
theorem range_map_sum (f : Nat → Nat) :
    ∀ n, ((List.range n).map f).sum = ∑ i in Finset.range n, f i
  | 0 => by simp
  | n + 1 => by
      rw [List.range_succ, Finset.sum_range_succ]
      simp [range_map_sum f n]

/-- The double loop of `n_nonzero_elements`, as a Finset double sum. -/
theorem n_nonzero_eq_finset_sum (s : BSM) :
    n_nonzero_elements s =
      ∑ r in Finset.range s.n_block_rows,
        ∑ c in Finset.range s.n_block_cols,
          ((blockAt s r c).map PetscMat.nnz).getD 0 := by
  unfold n_nonzero_elements
  rw [range_map_sum]
  exact Finset.sum_congr rfl (fun r _ => range_map_sum _ _)

/-- `n_nonzero_elements` depends only on the block shape and the grid. -/
theorem n_nonzero_congr {a b : BSM} (h1 : a.sub_objects = b.sub_objects)
    (h2 : a.n_block_rows = b.n_block_rows)
    (h3 : a.n_block_cols = b.n_block_cols) :
    n_nonzero_elements a = n_nonzero_elements b := by
  unfold n_nonzero_elements blockAt
  rw [h1, h2, h3]

/-- Row-major indexing into `psub_objects` of a rectangular grid. -/
theorem psub_getD :
    ∀ (grid : List (List (Option PetscMat))) (n r c : Nat),
      (∀ j, j < grid.length → (grid.getD j []).length = n) →
      r < grid.length → c < n →
      (psub_objects grid).getD (r * n + c) 0 =
        (((grid.getD r []).getD c none).map PetscMat.hid).getD 0
  | [], _, _, _, _, hr, _ => absurd hr (by simp)
  | row :: rest, n, 0, c, hlen, _, hc => by
      have hrow : row.length = n := by simpa using hlen 0 (by simp)
      have hpsub : psub_objects (row :: rest) =
          row.map (fun cell => (cell.map PetscMat.hid).getD 0) ++
            psub_objects rest := by
        simp [psub_objects]
      rw [hpsub, show 0 * n + c = c from by omega,
        getD_append_left _ _ c 0 (by rw [List.length_map, hrow]; exact hc)]
      exact getD_map_in _ row c 0 none (hrow ▸ hc)
  | row :: rest, n, r + 1, c, hlen, hr, hc => by
      have hrow : row.length = n := by simpa using hlen 0 (by simp)
      have hpsub : psub_objects (row :: rest) =
          row.map (fun cell => (cell.map PetscMat.hid).getD 0) ++
            psub_objects rest := by
        simp [psub_objects]
      have hidx : (r + 1) * n + c =
          (row.map (fun cell => (cell.map PetscMat.hid).getD 0)).length +
            (r * n + c) := by
        rw [List.length_map, hrow, Nat.succ_mul,
          Nat.add_comm (r * n) n, Nat.add_assoc]
      rw [hpsub, hidx, getD_append_right]
      exact psub_getD rest n r c
        (fun j hj => by simpa using hlen (j + 1) (by simpa using hj))
        (by simpa using hr) hc

/-- C1: after a successful `collect_sizes` on a grid where every cell
holds a concrete block, every cell is still concrete and
`n_nonzero_elements` is exactly the sum, over every row `r < R` and
column `c < C`, of block `(r, c)`'s individual nonzero count. -/
theorem total_nonzero_after_synchronize (s s' : BSM)
    (hws : wellShaped s = true) (hall : allAssigned s.sub_objects = true)
    (h : collect_sizes s = .ok s') :
    (∀ r, r < s'.n_block_rows → ∀ c, c < s'.n_block_cols →
      ∃ b, blockAt s' r c = some b) ∧
    n_nonzero_elements s' =
      ∑ r in Finset.range s'.n_block_rows,
        ∑ c in Finset.range s'.n_block_cols,
          ((blockAt s' r c).map PetscMat.nnz).getD 0 := by
  obtain ⟨grid', k, hf, hc, hs⟩ := collect_sizes_ok h
  rw [fillGridAux_ok_of_allSome _ 0 s.sub_objects s.next_hid hall] at hf
  simp only [Except.ok.injEq, Prod.mk.injEq] at hf
  obtain ⟨hg, hk⟩ := hf
  have hlen1 : s.sub_objects.length = s.n_block_rows := by
    simp only [wellShaped, Bool.and_eq_true, decide_eq_true_eq] at hws
    exact hws.1
  have hlen2 : ∀ j, j < s.sub_objects.length →
      (s.sub_objects.getD j []).length = s.n_block_cols := by
    intro j hj
    simp only [wellShaped, Bool.and_eq_true, List.all_eq_true,
      decide_eq_true_eq] at hws
    exact hws.2 _ (getD_mem s.sub_objects j [] hj)
  refine ⟨?_, n_nonzero_eq_finset_sum s'⟩
  intro r hr c hcc
  subst hs
  rw [← hg] at hr hcc ⊢
  exact allAssigned_getD hall (by rw [hlen1]; exact hr)
    (by rw [hlen2 r (by rw [hlen1]; exact hr)]; exact hcc)

/-- Witness for C1 at a concrete fully assigned 1×1 grid. -/
theorem total_nonzero_after_synchronize_witness :
    (∀ r, r < c1StateSynced.n_block_rows →
      ∀ c, c < c1StateSynced.n_block_cols →
      ∃ b, blockAt c1StateSynced r c = some b) ∧
    n_nonzero_elements c1StateSynced =
      ∑ r in Finset.range c1StateSynced.n_block_rows,
        ∑ c in Finset.range c1StateSynced.n_block_cols,
          ((blockAt c1StateSynced r c).map PetscMat.nnz).getD 0 :=
  total_nonzero_after_synchronize c1State c1StateSynced (by decide)
    (by decide) (by decide)

/-- C2: on a well-shaped grid in which some cells are null and every row
and every column contains at least one real block, a successful
`collect_sizes` replaces every previously null cell `(r, c)` by a
placeholder whose local/global row sizes are the recorded sizes of row
`r`, whose local/global column sizes are the recorded sizes of column
`c`, and whose nonzero count is 0; in particular, on the 2×2 scenario
grid (a real 3×3 block with 5 nonzeros at `(0, 0)`, a real 4×4 block
with 7 nonzeros at `(1, 1)`), the filled `(0, 1)` is 3×4 with 0
nonzeros, the filled `(1, 0)` is 4×3 with 0 nonzeros, the total nonzero
count is 12, and the global row and column counts are both 7. -/
theorem placeholder_fill :
    (∀ (s s' : BSM) (r c : Nat), wellShaped s = true →
        (∀ row ∈ s.sub_objects, row.any Option.isSome = true) →
        (∀ c', c' < s.n_block_cols →
          (columnOf c' s.sub_objects).any Option.isSome = true) →
        collect_sizes s = .ok s' → r < s.n_block_rows →
        c < s.n_block_cols → blockAt s r c = none →
        ∃ i, blockAt s' r c = some
          ⟨i, (scanTables s).comm,
            (scanTables s).row_local_sizes.getD r 0,
            (scanTables s).row_sizes.getD r 0,
            (scanTables s).col_local_sizes.getD c 0,
            (scanTables s).col_sizes.getD c 0, 0⟩) ∧
      (collect_sizes scenarioState = .ok scenarioSynced ∧
        blockAt scenarioSynced 0 1 =
          some ⟨2, Comm.user 0, 3, 3, 4, 4, 0⟩ ∧
        blockAt scenarioSynced 1 0 =
          some ⟨3, Comm.user 0, 4, 4, 3, 3, 0⟩ ∧
        n_nonzero_elements scenarioSynced = 12 ∧
        total_m scenarioSynced = 7 ∧ total_n scenarioSynced = 7) := by
  constructor
  · intro s s' r c hws hrows hcols h hr hc hnone
    obtain ⟨grid', k, hf, hcomm, hs⟩ := collect_sizes_ok h
    have hspec := fillGridAux_spec (scanTables s) 0 s.sub_objects
      s.next_hid grid' k hf
    have hlen1 : s.sub_objects.length = s.n_block_rows := by
      simp only [wellShaped, Bool.and_eq_true, decide_eq_true_eq] at hws
      exact hws.1
    have hlen2 : (s.sub_objects.getD r []).length = s.n_block_cols := by
      simp only [wellShaped, Bool.and_eq_true, List.all_eq_true,
        decide_eq_true_eq] at hws
      exact hws.2 _ (getD_mem s.sub_objects r []
        (by rw [hlen1]; exact hr))
    have hcell := (hspec.2.2.2 r (by rw [hlen1]; exact hr)).2 c
      (by rw [hlen2]; exact hc)
    obtain ⟨i, hi⟩ := hcell.2 hnone
    rw [Nat.zero_add] at hi
    subst hs
    exact ⟨i, hi⟩
  · constructor
    · decide
    · constructor
      · decide
      · exact ⟨by decide, by decide, by decide, by decide⟩

/-- Witness for C2: the general placeholder statement instantiated at
the 2×2 scenario grid, filling position `(0, 1)`. -/
theorem placeholder_fill_witness :
    ∃ i, blockAt scenarioSynced 0 1 = some
      ⟨i, (scanTables scenarioState).comm,
        (scanTables scenarioState).row_local_sizes.getD 0 0,
        (scanTables scenarioState).row_sizes.getD 0 0,
        (scanTables scenarioState).col_local_sizes.getD 1 0,
        (scanTables scenarioState).col_sizes.getD 1 0, 0⟩ :=
  placeholder_fill.1 scenarioState scenarioSynced 0 1 (by decide)
    (by decide) (by decide) (by decide) (by decide) (by decide) (by decide)

/-- C4: a successful `collect_sizes` installs a brand-new aggregate
handle: its block shape is the grid shape, its row-major sub-handle list
references exactly the native handles of the (now fully assigned) grid
cells — references, not copies — and its handle identity differs from
that of any previous aggregate (the old one having been destroyed),
provided all pre-existing handles predate the allocator mark. -/
theorem aggregate_rebuild_row_major (s s' : BSM)
    (hws : wellShaped s = true)
    (hold : ∀ nm, s.petsc_nest_matrix = some nm → nm.hid < s.next_hid)
    (h : collect_sizes s = .ok s') :
    ∃ nm, s'.petsc_nest_matrix = some nm ∧
      nm.n_rows = s.n_block_rows ∧ nm.n_cols = s.n_block_cols ∧
      (∀ r c, r < s.n_block_rows → c < s.n_block_cols →
        ∃ b, blockAt s' r c = some b ∧
          nm.subs.getD (r * s.n_block_cols + c) 0 = b.hid) ∧
      ∀ old, s.petsc_nest_matrix = some old → nm.hid ≠ old.hid := by
  obtain ⟨grid', k, hf, hcomm, hs⟩ := collect_sizes_ok h
  have hspec := fillGridAux_spec (scanTables s) 0 s.sub_objects
    s.next_hid grid' k hf
  have hlen1 : s.sub_objects.length = s.n_block_rows := by
    simp only [wellShaped, Bool.and_eq_true, decide_eq_true_eq] at hws
    exact hws.1
  have hlen2 : ∀ j, j < s.sub_objects.length →
      (s.sub_objects.getD j []).length = s.n_block_cols := by
    intro j hj
    simp only [wellShaped, Bool.and_eq_true, List.all_eq_true,
      decide_eq_true_eq] at hws
    exact hws.2 _ (getD_mem s.sub_objects j [] hj)
  have hglen : grid'.length = s.n_block_rows := by
    rw [hspec.1, hlen1]
  have hglen2 : ∀ j, j < grid'.length →
      (grid'.getD j []).length = s.n_block_cols := by
    intro j hj
    rw [hglen] at hj
    rw [(hspec.2.2.2 j (by rw [hlen1]; exact hj)).1,
      hlen2 j (by rw [hlen1]; exact hj)]
  refine ⟨⟨k, (scanTables s).comm, s.n_block_rows, s.n_block_cols,
    psub_objects grid'⟩, by rw [hs], rfl, rfl, ?_, ?_⟩
  · intro r c hr hc
    obtain ⟨b, hb⟩ := allAssigned_getD hspec.2.2.1
      (r := r) (c := c) (by rw [hglen]; exact hr)
      (by rw [hglen2 r (by rw [hglen]; exact hr)]; exact hc)
    refine ⟨b, by rw [hs]; exact hb, ?_⟩
    rw [psub_getD grid' s.n_block_cols r c hglen2
      (by rw [hglen]; exact hr) hc, hb]
    rfl
  · intro old hoe
    exact ne_of_gt (lt_of_lt_of_le (hold old hoe) hspec.2.1)

/-- Witness for C4 at the concrete fully assigned 1×1 grid. -/
theorem aggregate_rebuild_row_major_witness :
    ∃ nm, c1StateSynced.petsc_nest_matrix = some nm ∧
      nm.n_rows = c1State.n_block_rows ∧
      nm.n_cols = c1State.n_block_cols ∧
      (∀ r c, r < c1State.n_block_rows → c < c1State.n_block_cols →
        ∃ b, blockAt c1StateSynced r c = some b ∧
          nm.subs.getD (r * c1State.n_block_cols + c) 0 = b.hid) ∧
      ∀ old, c1State.petsc_nest_matrix = some old → nm.hid ≠ old.hid :=
  aggregate_rebuild_row_major c1State c1StateSynced (by decide)
    (fun nm hnm => Option.noConfusion hnm) (by decide)

/-- C6: two successive successful `collect_sizes` calls with no change
in between produce the same block-index tables both times, aggregates of
the same block shape built over the same row-major sub-handle list, and
the same total nonzero count. -/
theorem synchronize_idempotent (s s₁ s₂ : BSM)
    (h1 : collect_sizes s = .ok s₁) (h2 : collect_sizes s₁ = .ok s₂) :
    s₁.row_block_sizes = s₂.row_block_sizes ∧
      s₁.col_block_sizes = s₂.col_block_sizes ∧
      (∃ nm₁ nm₂, s₁.petsc_nest_matrix = some nm₁ ∧
        s₂.petsc_nest_matrix = some nm₂ ∧ nm₁.n_rows = nm₂.n_rows ∧
        nm₁.n_cols = nm₂.n_cols ∧ nm₁.subs = nm₂.subs) ∧
      n_nonzero_elements s₁ = n_nonzero_elements s₂ := by
  obtain ⟨g1, k1, hf1, hc1, hs1⟩ := collect_sizes_ok h1
  have hall1 : allAssigned g1 = true :=
    (fillGridAux_spec _ _ _ _ _ _ hf1).2.2.1
  obtain ⟨g2, k2, hf2, hc2, hs2⟩ := collect_sizes_ok h2
  have hsub1 : s₁.sub_objects = g1 := by rw [hs1]
  have hid2 : fillGridAux (scanTables s₁) 0 s₁.sub_objects s₁.next_hid =
      .ok (s₁.sub_objects, s₁.next_hid) :=
    fillGridAux_ok_of_allSome _ 0 _ _ (by rw [hsub1]; exact hall1)
  rw [hid2] at hf2
  simp only [Except.ok.injEq, Prod.mk.injEq] at hf2
  obtain ⟨hg2, hk2⟩ := hf2
  have hg2' : g2 = g1 := by rw [← hg2, hsub1]
  have hrows1 : s₁.n_block_rows = s.n_block_rows := by rw [hs1]
  have hcols1 : s₁.n_block_cols = s.n_block_cols := by rw [hs1]
  refine ⟨?_, ?_, ?_, ?_⟩
  · rw [hs1, hs2, hg2']
  · rw [hs1, hs2, hg2']
  · refine ⟨⟨k1, (scanTables s).comm, s.n_block_rows, s.n_block_cols,
      psub_objects g1⟩,
      ⟨k2, (scanTables s₁).comm, s₁.n_block_rows, s₁.n_block_cols,
        psub_objects g2⟩,
      by rw [hs1], by rw [hs2], by simp [hrows1], by simp [hcols1],
      by simp [hg2']⟩
  · refine n_nonzero_congr ?_ ?_ ?_
    · rw [hs1, hs2, hg2']
    · rw [hs1, hs2, hrows1]
    · rw [hs1, hs2, hcols1]

/-- Witness for C6 at the concrete 1×1 grid synchronized twice. -/
theorem synchronize_idempotent_witness :
    c1StateSynced.row_block_sizes = c6StateTwice.row_block_sizes ∧
      c1StateSynced.col_block_sizes = c6StateTwice.col_block_sizes ∧
      (∃ nm₁ nm₂, c1StateSynced.petsc_nest_matrix = some nm₁ ∧
        c6StateTwice.petsc_nest_matrix = some nm₂ ∧
        nm₁.n_rows = nm₂.n_rows ∧ nm₁.n_cols = nm₂.n_cols ∧
        nm₁.subs = nm₂.subs) ∧
      n_nonzero_elements c1StateSynced = n_nonzero_elements c6StateTwice :=
  synchronize_idempotent c1State c1StateSynced c6StateTwice (by decide)
    (by decide)

/-- Witness for the amended C8 theorem at the concrete inputs. -/
theorem asserts_interleaved_per_cell_witness :
    (reinit_rows_cols cexRows cexCols cexBdsp (Comm.user 0)
        initialBSM).1 =
      cellTrace cexRows cexCols cexBdsp (rowMajor 2 2) :=
  asserts_interleaved_per_cell cexRows cexCols cexBdsp (Comm.user 0)
    initialBSM (by decide) (by decide) (by decide)

end Petsc
